import Mathlib

/-!
Shallow embedding of `src/bridge_stream.rs` (the `BridgeStream` time-ordered
stream merger of the pcap-async crate), together with theorems settling the
specification claims about it.

Modelling conventions:
* `SystemTime` timestamps are `Nat` (a monotone comparable logical clock);
  `Duration` values are `Nat` as well.
* The opaque async source stream owned by each `BridgeStreamState` is not a
  field of the state: polling it is modelled by a `SourceResponse` input that
  the environment supplies for each source at each poll step, mirroring the
  four outcomes of `Stream::poll_next` in the Rust code
  (`Pending`, `Ready(Some(Err _))`, `Ready(None)`, `Ready(Some(Ok _))`).
* Rust's `Vec`/`VecDeque` become `List`; iteration order, `retain`, and
  `partition` keep their front-to-back semantics.
* `Vec::sort_by_key` is a stable sort; it is embedded as `List.mergeSort`
  on the timestamp ordering.
* Errors are opaque; they are represented by a `Nat` tag.
-/

namespace BridgeSpec

/-- Embedding of `Packet` (crate::packet::Packet): a timestamp plus opaque
payload and lengths.  Only the timestamp matters to the merger. -/
structure Packet where
  timestamp : Nat
  actual_length : Nat
  original_length : Nat
  data : List Nat
  deriving DecidableEq

/-- Embedding of `BridgeStreamState<E, T>`: the per-source buffer state.
The `stream` field (the opaque async source) is modelled externally via
`SourceResponse` inputs, so only `current` and `complete` remain. -/
structure BridgeStreamState where
  current : List (List Packet)
  complete : Bool
  deriving DecidableEq

/-- Embedding of `BridgeStreamState::is_complete`:
`self.complete && self.current.is_empty()`. -/
def is_complete (s : BridgeStreamState) : Bool :=
  s.complete && s.current.isEmpty

/-- Embedding of `BridgeStreamState::spread`.  Faithful to the source: both
`min` and `max` are computed by the same expression
`self.current.first().map(|s| s.first()).flatten()`, i.e. the first packet of
the first buffered batch.  `duration_since` on equal times is zero; on `Nat`
we use truncated subtraction (the two operands are always equal here). -/
def spread (s : BridgeStreamState) : Nat :=
  let mn := (s.current.head?).bind List.head?
  let mx := (s.current.head?).bind List.head?
  match mn, mx with
  | some a, some b => b.timestamp - a.timestamp
  | _, _ => 0

/-- The readiness predicate used in `poll_next`:
`s.current.len() >= 2 || s.complete`. -/
def readyS (s : BridgeStreamState) : Bool :=
  decide (2 ≤ s.current.length) || s.complete

/-- Embedding of the per-source `last_time` computation in `gather_packets`:
`s.current.last().iter().flat_map(|p| p.last()).last().map(|p| *p.timestamp())`,
i.e. the timestamp of the last packet of the last buffered batch. -/
def lastTime (s : BridgeStreamState) : Option Nat :=
  ((s.current.getLast?).bind List.getLast?).map Packet.timestamp

/-- One step of the `gather_to` accumulation in `gather_packets`:
`gather_to = gather_to.map(|prev| prev.min(last_time)).or(Some(last_time))`
when `last_time` is present, otherwise unchanged. -/
def gatherToStep (acc : Option Nat) (s : BridgeStreamState) : Option Nat :=
  match lastTime s with
  | some t =>
    match acc with
    | some prev => some (Nat.min prev t)
    | none => some t
  | none => acc

/-- The `gather_to` horizon computed by the first loop of `gather_packets`. -/
def gather_to (states : List BridgeStreamState) : Option Nat :=
  states.foldl gatherToStep none

/-- Embedding of the per-source body of the second loop of `gather_packets`:
flatten the buffered batches, partition on `timestamp <= gather_to`, keep the
remainder (if any) as a single compacted batch. -/
def release (h : Nat) (s : BridgeStreamState) : List Packet × BridgeStreamState :=
  let parts := (s.current.flatten).partition (fun p => decide (p.timestamp ≤ h))
  (parts.1, { s with current := if parts.2.isEmpty then [] else [parts.2] })

/-- The comparison used by `result.sort_by_key(|p| *p.timestamp())`. -/
def packetLE (a b : Packet) : Bool :=
  decide (a.timestamp ≤ b.timestamp)

/-- Embedding of `result.sort_by_key(|p| *p.timestamp())`: a sort by
timestamp.  The relative order of packets with equal timestamps is an
implementation detail of the sort (the design leaves tie-breaking
unspecified); insertion sort is used here because it is structurally
recursive, hence computable by kernel reduction. -/
def sortPackets (l : List Packet) : List Packet :=
  List.insertionSort (fun a b => a.timestamp ≤ b.timestamp) l

/-- Embedding of `gather_packets`: compute the horizon, release every packet
at or before it from every source (in source order), and sort the result by
timestamp.  Returns the emitted batch together with the updated states. -/
def gather_packets (states : List BridgeStreamState) :
    List Packet × List BridgeStreamState :=
  match gather_to states with
  | some h =>
    let rel := states.map (release h)
    (sortPackets (rel.flatMap Prod.fst), rel.map Prod.snd)
  | none => (sortPackets [], states)

/-- Embedding of `BridgeStream<E, T>`: the merger. -/
structure BridgeStream where
  stream_states : List BridgeStreamState
  max_buffer_time : Nat
  deriving DecidableEq

/-- Opaque embedding of the crate `Error` type returned by constructors. -/
inductive Error where
  | err (tag : Nat)
  deriving DecidableEq

/-- Embedding of `BridgeStream::new`: one fresh empty state per input source
(source handles are opaque, here `Nat`), wrapped in `Ok`. -/
def BridgeStream.new (streams : List Nat) (max_buffer_time : Nat) :
    Except Error BridgeStream :=
  Except.ok ⟨streams.map (fun _ => ⟨[], false⟩), max_buffer_time⟩

/-- The outcome of polling one underlying source once, mirroring
`Poll<Option<Result<Vec<Packet>, E>>>`. -/
inductive SourceResponse where
  | pending
  | error (e : Nat)
  | done
  | batch (v : List Packet)
  deriving DecidableEq

/-- The outcome of one `BridgeStream::poll_next` call, mirroring
`Poll<Option<Result<Vec<Packet>, E>>>` for the merger itself. -/
inductive PollResult where
  | pending
  | error (e : Nat)
  | finished
  | ready (b : List Packet)
  deriving DecidableEq

/-- Result of the source-polling loop of `poll_next`: either it completes
with the accumulated `max_time_spread`, `delay_count` and updated states, or
a source erred and the loop aborted early (later sources unpolled, the state
list as mutated so far). -/
inductive LoopOut where
  | ok (maxSpread delay : Nat) (states : List BridgeStreamState)
  | err (e : Nat) (states : List BridgeStreamState)
  deriving DecidableEq

/-- Embedding of the `for state in states.iter_mut()` loop of `poll_next`.
Each source is paired with the response its stream gives this step.  Before
polling, `max_time_spread` is updated from the state's `spread()`.  `Pending`
and empty batches bump `delay_count`; `Ready(None)` marks completion;
`Ready(Some(Ok(v)))` with nonempty `v` appends the batch; an error aborts the
loop immediately. -/
def pollLoop (maxSpread delay : Nat) :
    List (BridgeStreamState × SourceResponse) → LoopOut
  | [] => .ok maxSpread delay []
  | (s, r) :: rest =>
    let ms := Nat.max (spread s) maxSpread
    match r with
    | .pending =>
      match pollLoop ms (delay + 1) rest with
      | .ok m d sts => .ok m d (s :: sts)
      | .err e sts => .err e (s :: sts)
    | .error e => .err e (s :: rest.map Prod.fst)
    | .done =>
      match pollLoop ms delay rest with
      | .ok m d sts => .ok m d ({ s with complete := true } :: sts)
      | .err e sts => .err e ({ s with complete := true } :: sts)
    | .batch v =>
      if v.isEmpty then
        match pollLoop ms (delay + 1) rest with
        | .ok m d sts => .ok m d (s :: sts)
        | .err e sts => .err e (s :: sts)
      else
        match pollLoop ms delay rest with
        | .ok m d sts => .ok m d ({ s with current := s.current ++ [v] } :: sts)
        | .err e sts => .err e ({ s with current := s.current ++ [v] } :: sts)

/-- The flush gate of `poll_next`:
`ready_count == states.len() || one_buffer_is_over`, where
`one_buffer_is_over = max_time_spread > *max_buffer_time`. -/
def flushGate (max_buffer_time maxSpread : Nat)
    (states : List BridgeStreamState) : Bool :=
  decide (List.countP readyS states = states.length) ||
    decide (max_buffer_time < maxSpread)

/-- The flush step of `poll_next`: `gather_packets` when the gate is open,
otherwise an empty result with the states untouched. -/
def flushRes (max_buffer_time maxSpread : Nat)
    (states : List BridgeStreamState) : List Packet × List BridgeStreamState :=
  if flushGate max_buffer_time maxSpread states then gather_packets states
  else ([], states)

/-- Embedding of `states.retain(|iface| !iface.is_complete())`: keep exactly
the states that are not exhausted. -/
def retained (sts : List BridgeStreamState) : List BridgeStreamState :=
  sts.filter (fun s => !is_complete s)

/-- The tail of `poll_next` after the flush decision: drop exhausted states
(`retain(!is_complete)`), then the terminal decision:
finished when `res` and the retained states are both empty; `Pending` when
`delay_count >= states.len()` and states remain; otherwise emit `res`. -/
def finalize (max_buffer_time delay : Nat)
    (rs : List Packet × List BridgeStreamState) : PollResult × BridgeStream :=
  if rs.1.isEmpty && (retained rs.2).isEmpty then
    (.finished, ⟨retained rs.2, max_buffer_time⟩)
  else if decide ((retained rs.2).length ≤ delay) && !(retained rs.2).isEmpty then
    (.pending, ⟨retained rs.2, max_buffer_time⟩)
  else (.ready rs.1, ⟨retained rs.2, max_buffer_time⟩)

/-- Embedding of `BridgeStream::poll_next`, with the per-source responses of
this scheduling step supplied by the environment (position `i` of `resps`
answers for source `i`). -/
def poll_next (m : BridgeStream) (resps : List SourceResponse) :
    PollResult × BridgeStream :=
  match pollLoop 0 0 (m.stream_states.zip resps) with
  | .err e sts => (.error e, ⟨sts, m.max_buffer_time⟩)
  | .ok maxSpread delay sts =>
    finalize m.max_buffer_time delay (flushRes m.max_buffer_time maxSpread sts)

/-- Drive the merger through a sequence of poll steps, collecting each
step's output. -/
def runPolls (m : BridgeStream) : List (List SourceResponse) → List PollResult
  | [] => []
  | rs :: rest =>
    let step := poll_next m rs
    step.1 :: runPolls step.2 rest

/-- All records currently buffered across a list of source states, in
buffer order. -/
def allPackets (states : List BridgeStreamState) : List Packet :=
  states.flatMap (fun s => s.current.flatten)

/-- A packet with the given timestamp and trivial payload, used for concrete
scenarios (mirrors `make_packet` in the crate's tests). -/
def pkt (t : Nat) : Packet :=
  ⟨t, 0, 0, []⟩

/-- A source response that bumps `delay_count` in the polling loop:
`Poll::Pending`, or a `Ready` batch that is empty. -/
def delayedResp (r : SourceResponse) : Bool :=
  match r with
  | .pending => true
  | .batch v => v.isEmpty
  | _ => false

/-- A concrete two-source buffered configuration used to witness the flush
theorems: source 0 holds batches at t = 10 and t = 20, source 1 a batch at
t = 15, so the release horizon is 15. -/
def sampleStates : List BridgeStreamState :=
  [⟨[[pkt 10], [pkt 20]], false⟩, ⟨[[pkt 15]], false⟩]

/-! ## General lemmas about the embedded operations -/

theorem release_fst (h : Nat) (s : BridgeStreamState) :
    (release h s).1 =
      s.current.flatten.filter (fun p => decide (p.timestamp ≤ h)) := by
  simp [release, List.partition_eq_filter_filter]

theorem release_snd (h : Nat) (s : BridgeStreamState) :
    (release h s).2 = { s with current :=
      if (s.current.flatten.filter (fun p => !decide (p.timestamp ≤ h))).isEmpty
      then []
      else [s.current.flatten.filter (fun p => !decide (p.timestamp ≤ h))] } := by
  simp [release, List.partition_eq_filter_filter, Function.comp_def]

theorem allPackets_cons (s : BridgeStreamState) (rest : List BridgeStreamState) :
    allPackets (s :: rest) = s.current.flatten ++ allPackets rest := by
  simp [allPackets]

theorem flatMap_release_fst (h : Nat) (states : List BridgeStreamState) :
    (states.map (release h)).flatMap Prod.fst =
      (allPackets states).filter (fun p => decide (p.timestamp ≤ h)) := by
  induction states with
  | nil => rfl
  | cons s rest ih =>
    rw [List.map_cons, List.flatMap_cons, allPackets_cons, List.filter_append,
      release_fst, ih]

theorem sortPackets_perm (l : List Packet) : (sortPackets l).Perm l := by
  unfold sortPackets
  exact List.perm_insertionSort _ l

theorem sortPackets_sorted (l : List Packet) :
    List.Pairwise (fun a b : Packet => a.timestamp ≤ b.timestamp)
      (sortPackets l) := by
  haveI : IsTotal Packet (fun a b : Packet => a.timestamp ≤ b.timestamp) :=
    ⟨fun a b => Nat.le_total a.timestamp b.timestamp⟩
  haveI : IsTrans Packet (fun a b : Packet => a.timestamp ≤ b.timestamp) :=
    ⟨fun _ _ _ hab hbc => Nat.le_trans hab hbc⟩
  exact List.sorted_insertionSort (fun a b : Packet => a.timestamp ≤ b.timestamp)
    l

theorem gather_packets_snd_length (states : List BridgeStreamState) :
    (gather_packets states).2.length = states.length := by
  unfold gather_packets
  cases gather_to states <;> simp

theorem flushRes_snd_length (max_buffer_time maxSpread : Nat)
    (states : List BridgeStreamState) :
    (flushRes max_buffer_time maxSpread states).2.length = states.length := by
  unfold flushRes
  split
  · exact gather_packets_snd_length states
  · rfl

theorem finalize_snd (max_buffer_time delay : Nat)
    (rs : List Packet × List BridgeStreamState) :
    (finalize max_buffer_time delay rs).2 = ⟨retained rs.2, max_buffer_time⟩ := by
  unfold finalize
  split
  · rfl
  · split
    · rfl
    · rfl

theorem finalize_fst_finished_iff (max_buffer_time delay : Nat)
    (rs : List Packet × List BridgeStreamState) :
    (finalize max_buffer_time delay rs).1 = .finished ↔
      (rs.1 = [] ∧ retained rs.2 = []) := by
  unfold finalize
  split
  · rename_i hcond
    simp only [Bool.and_eq_true, List.isEmpty_iff] at hcond
    simpa using hcond
  · rename_i hcond
    rw [Bool.and_eq_true, List.isEmpty_iff, List.isEmpty_iff] at hcond
    split
    · simpa using hcond
    · simpa using hcond

theorem gatherTo_fold_spec (states : List BridgeStreamState) :
    ∀ (acc : Option Nat) (h : Nat),
      states.foldl gatherToStep acc = some h →
      (∀ s ∈ states, ∀ w, lastTime s = some w → h ≤ w) ∧
      (acc = some h ∨ ∃ s ∈ states, lastTime s = some h) ∧
      (∀ a, acc = some a → h ≤ a) := by
  induction states with
  | nil =>
    intro acc h hf
    simp only [List.foldl_nil] at hf
    refine ⟨by simp, Or.inl hf, ?_⟩
    intro a ha
    rw [hf] at ha
    injection ha with ha
    omega
  | cons s rest ih =>
    intro acc h hf
    simp only [List.foldl_cons] at hf
    obtain ⟨ih1, ih2, ih3⟩ := ih (gatherToStep acc s) h hf
    cases hlt : lastTime s with
    | none =>
      have hstep : gatherToStep acc s = acc := by simp [gatherToStep, hlt]
      rw [hstep] at ih2 ih3
      refine ⟨?_, ?_, ih3⟩
      · intro s' hs' w hw
        rcases List.mem_cons.mp hs' with rfl | hs'
        · rw [hlt] at hw; cases hw
        · exact ih1 s' hs' w hw
      · rcases ih2 with h2 | ⟨s', hs', hw⟩
        · exact Or.inl h2
        · exact Or.inr ⟨s', List.mem_cons_of_mem _ hs', hw⟩
    | some t =>
      cases acc with
      | none =>
        have hstep : gatherToStep none s = some t := by simp [gatherToStep, hlt]
        rw [hstep] at ih2 ih3
        have hht : h ≤ t := ih3 t rfl
        refine ⟨?_, ?_, ?_⟩
        · intro s' hs' w hw
          rcases List.mem_cons.mp hs' with rfl | hs'
          · rw [hlt] at hw; injection hw with hw; omega
          · exact ih1 s' hs' w hw
        · rcases ih2 with h2 | ⟨s', hs', hw⟩
          · injection h2 with h2
            exact Or.inr ⟨s, List.mem_cons_self s rest, by rw [hlt, h2]⟩
          · exact Or.inr ⟨s', List.mem_cons_of_mem _ hs', hw⟩
        · intro a ha; cases ha
      | some a =>
        have hstep : gatherToStep (some a) s = some (Nat.min a t) := by
          simp [gatherToStep, hlt]
        rw [hstep] at ih2 ih3
        have hmin : h ≤ Nat.min a t := ih3 _ rfl
        refine ⟨?_, ?_, ?_⟩
        · intro s' hs' w hw
          rcases List.mem_cons.mp hs' with rfl | hs'
          · rw [hlt] at hw
            injection hw with hw
            exact le_of_le_of_eq (Nat.le_trans hmin (Nat.min_le_right a t)) hw
          · exact ih1 s' hs' w hw
        · rcases ih2 with h2 | ⟨s', hs', hw⟩
          · injection h2 with h2
            rcases Nat.le_total a t with hat | hta
            · have hma : Nat.min a t = a := Nat.min_eq_left hat
              rw [hma] at h2
              exact Or.inl (by rw [h2])
            · have hmt : Nat.min a t = t := Nat.min_eq_right hta
              rw [hmt] at h2
              exact Or.inr ⟨s, List.mem_cons_self s rest, by rw [hlt, h2]⟩
          · exact Or.inr ⟨s', List.mem_cons_of_mem _ hs', hw⟩
        · intro a' ha'
          injection ha' with ha'
          exact le_of_le_of_eq (Nat.le_trans hmin (Nat.min_le_left a t)) ha'

theorem flatten_getLast? {α : Type} :
    ∀ (l : List (List α)), (∀ b ∈ l, b ≠ []) →
      l.flatten.getLast? = (l.getLast?).bind List.getLast?
  | [], _ => rfl
  | [b], _ => by simp
  | a :: b :: t, hne => by
    have hrec := flatten_getLast? (b :: t)
      (fun x hx => hne x (List.mem_cons_of_mem _ hx))
    obtain ⟨lb, hlb⟩ : ∃ lb, (b :: t).getLast? = some lb := by
      cases hq : (b :: t).getLast? with
      | none =>
        have hbt : (b :: t : List (List α)) ≠ [] := by simp
        have hs := List.getLast?_isSome.mpr hbt
        rw [hq] at hs
        cases hs
      | some lb => exact ⟨lb, rfl⟩
    have hlbne : lb ≠ [] := hne lb (List.mem_of_mem_getLast? hlb)
    obtain ⟨y, hy⟩ : ∃ y, lb.getLast? = some y := by
      cases hq : lb.getLast? with
      | none =>
        have hs := List.getLast?_isSome.mpr hlbne
        rw [hq] at hs
        cases hs
      | some y => exact ⟨y, rfl⟩
    rw [List.flatten_cons, List.getLast?_append, List.getLast?_cons_cons, hrec,
      hlb]
    simp [hy]

theorem lastTime_eq_flatten (s : BridgeStreamState)
    (hne : ∀ b ∈ s.current, b ≠ []) :
    lastTime s = (s.current.flatten.getLast?).map Packet.timestamp := by
  rw [lastTime, flatten_getLast? s.current hne]

theorem pollLoop_all_delayed :
    ∀ (l : List (BridgeStreamState × SourceResponse)) (ms d : Nat),
      (∀ p ∈ l, delayedResp p.2 = true) →
      ∃ msp, pollLoop ms d l = .ok msp (d + l.length) (l.map Prod.fst) := by
  intro l
  induction l with
  | nil => exact fun ms d _ => ⟨ms, by simp [pollLoop]⟩
  | cons p rest ih =>
    intro ms d hall
    obtain ⟨s, r⟩ := p
    have hr : delayedResp r = true := hall (s, r) (List.mem_cons_self _ _)
    have hrest : ∀ q ∈ rest, delayedResp q.2 = true :=
      fun q hq => hall q (List.mem_cons_of_mem _ hq)
    cases r with
    | pending =>
      obtain ⟨msp, hms⟩ := ih (Nat.max (spread s) ms) (d + 1) hrest
      refine ⟨msp, ?_⟩
      have harith : d + 1 + rest.length = d + (rest.length + 1) := by omega
      simp only [pollLoop, hms, List.map_cons, List.length_cons, harith]
    | batch v =>
      obtain ⟨msp, hms⟩ := ih (Nat.max (spread s) ms) (d + 1) hrest
      refine ⟨msp, ?_⟩
      have hv : v.isEmpty = true := hr
      have harith : d + 1 + rest.length = d + (rest.length + 1) := by omega
      simp only [pollLoop, hv, if_true, hms, List.map_cons, List.length_cons,
        harith]
    | error e => simp [delayedResp] at hr
    | done => simp [delayedResp] at hr

theorem pollLoop_err_packets :
    ∀ (l : List (BridgeStreamState × SourceResponse)) (ms d e : Nat)
      (sts : List BridgeStreamState),
      pollLoop ms d l = .err e sts →
      (allPackets (l.map Prod.fst)).Sublist (allPackets sts) := by
  intro l
  induction l with
  | nil => intro ms d e sts h; simp [pollLoop] at h
  | cons p rest ih =>
    intro ms d e sts h
    obtain ⟨s, r⟩ := p
    cases r with
    | pending =>
      cases hrec : pollLoop (Nat.max (spread s) ms) (d + 1) rest with
      | ok m dd sts' => simp [pollLoop, hrec] at h
      | err e' sts' =>
        simp only [pollLoop, hrec] at h
        injection h with he hsts
        rw [← hsts, List.map_cons, allPackets_cons, allPackets_cons]
        exact (List.Sublist.refl _).append (ih _ _ _ _ hrec)
    | error e2 =>
      simp only [pollLoop] at h
      injection h with he hsts
      rw [← hsts, List.map_cons]
    | done =>
      cases hrec : pollLoop (Nat.max (spread s) ms) d rest with
      | ok m dd sts' => simp [pollLoop, hrec] at h
      | err e' sts' =>
        simp only [pollLoop, hrec] at h
        injection h with he hsts
        rw [← hsts, List.map_cons, allPackets_cons, allPackets_cons]
        exact (List.Sublist.refl _).append (ih _ _ _ _ hrec)
    | batch v =>
      by_cases hv : v.isEmpty
      · cases hrec : pollLoop (Nat.max (spread s) ms) (d + 1) rest with
        | ok m dd sts' => simp [pollLoop, hrec, hv] at h
        | err e' sts' =>
          simp only [pollLoop, hv, if_true, hrec] at h
          injection h with he hsts
          rw [← hsts, List.map_cons, allPackets_cons, allPackets_cons]
          exact (List.Sublist.refl _).append (ih _ _ _ _ hrec)
      · cases hrec : pollLoop (Nat.max (spread s) ms) d rest with
        | ok m dd sts' =>
          simp only [pollLoop] at h
          rw [if_neg hv] at h
          simp only [hrec] at h
          exact LoopOut.noConfusion h
        | err e' sts' =>
          simp only [pollLoop] at h
          rw [if_neg hv] at h
          simp only [hrec] at h
          injection h with he hsts
          rw [← hsts, List.map_cons, allPackets_cons, allPackets_cons]
          refine List.Sublist.append ?_ (ih _ _ _ _ hrec)
          rw [List.flatten_append]
          exact List.sublist_append_left _ _

theorem poll_next_snd_ok (m : BridgeStream) (resps : List SourceResponse)
    (msp dly : Nat) (sts : List BridgeStreamState)
    (hloop : pollLoop 0 0 (m.stream_states.zip resps) = .ok msp dly sts) :
    (poll_next m resps).2 =
      ⟨retained (flushRes m.max_buffer_time msp sts).2, m.max_buffer_time⟩ := by
  unfold poll_next
  rw [hloop]
  exact finalize_snd _ _ _

theorem flushGate_no_override (mbt msp : Nat) (sts : List BridgeStreamState)
    (hspread : msp ≤ mbt) :
    flushGate mbt msp sts = decide (∀ s ∈ sts, readyS s = true) := by
  unfold flushGate
  have h1 : decide (mbt < msp) = false := decide_eq_false (Nat.not_lt.mpr hspread)
  rw [h1, Bool.or_false, decide_eq_decide]
  exact List.countP_eq_length

theorem finalize_empty_ready (mbt d : Nat) (sts : List BridgeStreamState)
    (b : List Packet) (h : (finalize mbt d ([], sts)).1 = .ready b) : b = [] := by
  unfold finalize at h
  split at h
  · exact PollResult.noConfusion h
  · split at h
    · exact PollResult.noConfusion h
    · injection h with hb
      exact hb.symm

theorem finalize_pending (mbt d : Nat) (rs : List Packet × List BridgeStreamState)
    (hne : retained rs.2 ≠ []) (hd : (retained rs.2).length ≤ d) :
    (finalize mbt d rs).1 = .pending := by
  have hf : (retained rs.2).isEmpty = false := by
    cases hc : (retained rs.2).isEmpty
    · rfl
    · exact absurd (List.isEmpty_iff.mp hc) hne
  unfold finalize
  rw [hf]
  simp [hd]

/-! ## Claim theorems -/

/-- C1: the claim says every record produced by any source appears in exactly
one emitted batch, absent source errors.  The code violates this: with two
sources, source 0 buffers records at t = 10 and t = 20 over two steps while
source 1 is pending; in step 3 source 1 ends and source 0 is pending, so the
readiness gate opens, `gather_packets` removes both records from the buffer,
but `delay_count >= states.len()` then makes `poll_next` return `Pending`,
discarding the gathered batch.  The merger then finishes having emitted no
record at all: the run below contains no error response, yet its only
outputs are two empty batches, a pending, and termination. -/
theorem c1_pending_after_gather_loses_records :
    runPolls ⟨[⟨[], false⟩, ⟨[], false⟩], 1000000⟩
      [[.batch [pkt 10], .pending], [.batch [pkt 20], .pending],
       [.pending, .done], [.done]] =
      [.ready [], .ready [], .pending, .finished] := by
  decide

/-- C3: the claim says `spread` equals the duration between the earliest and
the latest buffered timestamps.  In the code both ends of the window are
computed by the same expression (the first packet of the first batch), so
`spread` is identically zero; in particular a buffer spanning t = 0 to t = 5
reports a spread of 0 where the claim demands 5. -/
theorem c3_spread_always_zero :
    (∀ s : BridgeStreamState, spread s = 0) ∧
    spread ⟨[[pkt 0], [pkt 5]], false⟩ = 0 ∧ (5 : Nat) ≠ 0 := by
  refine ⟨fun s => ?_, by decide, by decide⟩
  simp only [spread]
  split
  · rename_i a b heq1 heq2
    rw [heq1] at heq2
    injection heq2 with hab
    rw [hab]
    exact Nat.sub_self _
  · rfl

/-- C4 counterexample: the claim says a source error is the next AND ONLY
subsequent item of the merger's output stream.  The code does not latch the
error: after a poll step returns the error, the very next poll step proceeds
normally and yields an `Ok` item (here an empty batch), so the error is not
the only subsequent item. -/
theorem c4_error_not_terminal :
    runPolls ⟨[⟨[], false⟩], 1000⟩ [[.error 5], [.batch [pkt 10]]] =
      [.error 5, .ready []] ∧
    PollResult.ready [] ≠ PollResult.error 5 := by
  exact ⟨by decide, by decide⟩

/-- C8 counterexample: the claim says construction rejects a degenerate
source set such as the empty list by returning an error.  `BridgeStream::new`
with an empty source list returns `Ok` (and never returns the error
variant at all). -/
theorem c8_new_empty_ok :
    BridgeStream.new [] 100 = .ok ⟨[], 100⟩ ∧
    ∀ e, BridgeStream.new [] 100 ≠ .error e :=
  ⟨rfl, fun _ h => Except.noConfusion h⟩

/-- C8 amended: construction never fails — `BridgeStream::new` returns `Ok`
(one fresh empty buffer per source) for every source list, including the
empty list, and every `max_buffer_time`; no validation is performed. -/
theorem c8_new_never_fails (streams : List Nat) (max_buffer_time : Nat) :
    BridgeStream.new streams max_buffer_time =
      .ok ⟨streams.map (fun _ => ⟨[], false⟩), max_buffer_time⟩ :=
  rfl

/-- C9 counterexample: the claim says at the end of EVERY poll step every
exhausted SourceBuffer is removed.  In a step where a source errors, the loop
returns early and `retain` never runs: here source 0 reaches end-of-data with
an empty buffer (exhausted) and source 1 errors, yet the exhausted state is
still present in the merger afterwards. -/
theorem c9_error_step_keeps_exhausted :
    poll_next ⟨[⟨[], false⟩, ⟨[], false⟩], 100⟩ [.done, .error 7] =
      (.error 7, ⟨[⟨[], true⟩, ⟨[], false⟩], 100⟩) ∧
    is_complete ⟨[], true⟩ = true := by
  decide

/-- C10: a merger constructed from an empty source list is accepted, and its
very first poll signals end-of-data (with no batch emitted and no pending
signal), whatever responses the environment would supply. -/
theorem c10_empty_merger_finishes_immediately (max_buffer_time : Nat)
    (resps : List SourceResponse) :
    BridgeStream.new [] max_buffer_time = .ok ⟨[], max_buffer_time⟩ ∧
    poll_next ⟨[], max_buffer_time⟩ resps =
      (.finished, ⟨[], max_buffer_time⟩) := by
  refine ⟨rfl, ?_⟩
  simp [poll_next, pollLoop, flushRes, flushGate, gather_packets, gather_to,
    sortPackets, List.mergeSort_nil, finalize, retained]

/-- C2: when the flush algorithm runs (the horizon computation yields `h`)
and every buffered batch is nonempty (the invariant maintained by the code,
which never stores an empty batch), the emitted batch is a permutation of
exactly the buffered records with timestamp at or below `h`, sorted
ascending by timestamp; in every source the records above `h` remain
buffered as a single compacted batch (or the buffer empties); and `h` is the
minimum, over the sources with at least one buffered record, of the
timestamp of that source's most-recently-buffered record. -/
theorem c2_gather_packets_spec (states : List BridgeStreamState) (h : Nat)
    (hg : gather_to states = some h)
    (hne : ∀ s ∈ states, ∀ b ∈ s.current, b ≠ []) :
    ((gather_packets states).1).Perm
        ((allPackets states).filter (fun p => decide (p.timestamp ≤ h))) ∧
    List.Pairwise (fun a b : Packet => a.timestamp ≤ b.timestamp)
      (gather_packets states).1 ∧
    (gather_packets states).2 = states.map (fun s => { s with current :=
        if (s.current.flatten.filter
              (fun p => !decide (p.timestamp ≤ h))).isEmpty then []
        else [s.current.flatten.filter (fun p => !decide (p.timestamp ≤ h))] }) ∧
    (∀ s ∈ states, ∀ w,
        (s.current.flatten.getLast?).map Packet.timestamp = some w → h ≤ w) ∧
    (∃ s ∈ states, (s.current.flatten.getLast?).map Packet.timestamp = some h) := by
  have hfst : (gather_packets states).1 =
      sortPackets ((states.map (release h)).flatMap Prod.fst) := by
    unfold gather_packets
    rw [hg]
  have hsnd : (gather_packets states).2 =
      (states.map (release h)).map Prod.snd := by
    unfold gather_packets
    rw [hg]
  obtain ⟨hmin, hex, -⟩ := gatherTo_fold_spec states none h hg
  refine ⟨?_, ?_, ?_, ?_, ?_⟩
  · rw [hfst, flatMap_release_fst]
    exact sortPackets_perm _
  · rw [hfst]
    exact sortPackets_sorted _
  · rw [hsnd, List.map_map]
    exact List.map_congr_left (fun s _ => release_snd h s)
  · intro s hs w hw
    rw [← lastTime_eq_flatten s (hne s hs)] at hw
    exact hmin s hs w hw
  · rcases hex with hacc | ⟨s, hs, hlt⟩
    · exact Option.noConfusion hacc
    · exact ⟨s, hs, by rw [← lastTime_eq_flatten s (hne s hs), hlt]⟩

/-- Witness for C2 at the concrete two-source configuration `sampleStates`
(horizon 15). -/
theorem c2_gather_packets_spec_witness :
    ((gather_packets sampleStates).1).Perm
        ((allPackets sampleStates).filter (fun p => decide (p.timestamp ≤ 15))) ∧
    List.Pairwise (fun a b : Packet => a.timestamp ≤ b.timestamp)
      (gather_packets sampleStates).1 ∧
    (gather_packets sampleStates).2 = sampleStates.map (fun s => { s with
        current :=
        if (s.current.flatten.filter
              (fun p => !decide (p.timestamp ≤ 15))).isEmpty then []
        else [s.current.flatten.filter (fun p => !decide (p.timestamp ≤ 15))] }) ∧
    (∀ s ∈ sampleStates, ∀ w,
        (s.current.flatten.getLast?).map Packet.timestamp = some w → 15 ≤ w) ∧
    (∃ s ∈ sampleStates,
        (s.current.flatten.getLast?).map Packet.timestamp = some 15) :=
  c2_gather_packets_spec sampleStates 15 (by decide) (by decide)

/-- C4 amended: if a source errors during a poll step, `poll_next` returns
that error immediately as this step's output, without running the flush:
every record that was buffered before the step is still buffered afterwards
(nothing is emitted or dropped by the error path), the states being those
the aborted loop left behind.  The error does not, however, terminate the
stream (see the counterexample). -/
theorem c4_error_propagates_immediately (m : BridgeStream)
    (resps : List SourceResponse) (e : Nat) (sts : List BridgeStreamState)
    (hlen : m.stream_states.length ≤ resps.length)
    (hloop : pollLoop 0 0 (m.stream_states.zip resps) = .err e sts) :
    poll_next m resps = (.error e, ⟨sts, m.max_buffer_time⟩) ∧
    (allPackets m.stream_states).Sublist (allPackets sts) := by
  constructor
  · unfold poll_next
    rw [hloop]
  · have hsub := pollLoop_err_packets (m.stream_states.zip resps) 0 0 e sts hloop
    rwa [List.map_fst_zip _ _ hlen] at hsub

/-- Witness for the C4 amended theorem: a single already-buffered source
errors; the error is the step's output and the buffered record survives. -/
theorem c4_error_propagates_immediately_witness :
    poll_next ⟨[⟨[[pkt 4]], false⟩], 2⟩ [.error 9] =
      (.error 9, ⟨[⟨[[pkt 4]], false⟩], 2⟩) ∧
    (allPackets [⟨[[pkt 4]], false⟩]).Sublist (allPackets [⟨[[pkt 4]], false⟩]) :=
  c4_error_propagates_immediately ⟨[⟨[[pkt 4]], false⟩], 2⟩ [.error 9] 9
    [⟨[[pkt 4]], false⟩] (by decide) rfl

/-- C5: in a poll step without the latency-bound override (the accumulated
`max_time_spread` does not exceed `max_buffer_time`), the flush algorithm
(`gather_packets`) runs precisely when every post-poll SourceBuffer has at
least two buffered batches or is complete; otherwise the step's produced
batch is empty (and in particular any `Ok` output that step is the empty
batch). -/
theorem c5_readiness_gate (m : BridgeStream) (resps : List SourceResponse)
    (msp dly : Nat) (sts : List BridgeStreamState)
    (hloop : pollLoop 0 0 (m.stream_states.zip resps) = .ok msp dly sts)
    (hspread : msp ≤ m.max_buffer_time) :
    ((∀ s ∈ sts, readyS s = true) →
      poll_next m resps = finalize m.max_buffer_time dly (gather_packets sts)) ∧
    ((¬ ∀ s ∈ sts, readyS s = true) →
      poll_next m resps = finalize m.max_buffer_time dly ([], sts) ∧
      ∀ b, (poll_next m resps).1 = .ready b → b = []) := by
  have hgate := flushGate_no_override m.max_buffer_time msp sts hspread
  have hpoll : poll_next m resps =
      finalize m.max_buffer_time dly (flushRes m.max_buffer_time msp sts) := by
    unfold poll_next
    rw [hloop]
  constructor
  · intro hall
    rw [hpoll]
    unfold flushRes
    rw [hgate, decide_eq_true hall, if_pos rfl]
  · intro hnall
    have hg2 : decide (∀ s ∈ sts, readyS s = true) = false := decide_eq_false hnall
    have hfr : flushRes m.max_buffer_time msp sts = ([], sts) := by
      unfold flushRes
      rw [hgate, hg2, if_neg Bool.false_ne_true]
    refine ⟨by rw [hpoll, hfr], ?_⟩
    intro b hb
    rw [hpoll, hfr] at hb
    exact finalize_empty_ready _ _ _ _ hb

/-- Witness for C5: one source with two buffered batches answers `Pending`;
the readiness gate is satisfied and the flush runs. -/
theorem c5_readiness_gate_witness :
    ((∀ s ∈ [(⟨[[pkt 1], [pkt 2]], false⟩ : BridgeStreamState)], readyS s = true) →
      poll_next ⟨[⟨[[pkt 1], [pkt 2]], false⟩], 50⟩ [.pending] =
        finalize 50 1 (gather_packets [⟨[[pkt 1], [pkt 2]], false⟩])) ∧
    ((¬ ∀ s ∈ [(⟨[[pkt 1], [pkt 2]], false⟩ : BridgeStreamState)], readyS s = true) →
      poll_next ⟨[⟨[[pkt 1], [pkt 2]], false⟩], 50⟩ [.pending] =
        finalize 50 1 ([], [⟨[[pkt 1], [pkt 2]], false⟩]) ∧
      ∀ b, (poll_next ⟨[⟨[[pkt 1], [pkt 2]], false⟩], 50⟩ [.pending]).1 =
          .ready b → b = []) :=
  c5_readiness_gate ⟨[⟨[[pkt 1], [pkt 2]], false⟩], 50⟩ [.pending] 0 1
    [⟨[[pkt 1], [pkt 2]], false⟩] rfl (by decide)

/-- C6: if every source's response this step is `Pending` or an empty batch,
and at least one SourceBuffer remains after the removal of exhausted ones,
then the merger's poll returns `Pending` and emits no batch this step. -/
theorem c6_backpressure_pending (m : BridgeStream) (resps : List SourceResponse)
    (hall : ∀ r ∈ resps, delayedResp r = true)
    (hlen : resps.length = m.stream_states.length)
    (hrem : (poll_next m resps).2.stream_states ≠ []) :
    (poll_next m resps).1 = .pending := by
  have hzip : ∀ p ∈ m.stream_states.zip resps, delayedResp p.2 = true := by
    intro p hp
    exact hall p.2 (List.of_mem_zip hp).2
  obtain ⟨msp, hms⟩ := pollLoop_all_delayed (m.stream_states.zip resps) 0 0 hzip
  have hms' : pollLoop 0 0 (m.stream_states.zip resps) =
      .ok msp m.stream_states.length m.stream_states := by
    rw [hms, List.map_fst_zip _ _ (le_of_eq hlen.symm)]
    congr 1
    rw [Nat.zero_add, List.length_zip, hlen]
    exact min_self _
  have hsnd := poll_next_snd_ok m resps msp m.stream_states.length
    m.stream_states hms'
  rw [hsnd] at hrem
  have hlenle :
      (retained (flushRes m.max_buffer_time msp m.stream_states).2).length ≤
        m.stream_states.length := by
    calc (retained (flushRes m.max_buffer_time msp m.stream_states).2).length
        ≤ (flushRes m.max_buffer_time msp m.stream_states).2.length :=
          List.length_filter_le _ _
      _ = m.stream_states.length := flushRes_snd_length _ _ _
  unfold poll_next
  rw [hms']
  exact finalize_pending _ _ _ hrem hlenle

/-- Witness for C6: a single buffered, incomplete source answers `Pending`;
the merger reports `Pending`. -/
theorem c6_backpressure_pending_witness :
    (poll_next ⟨[⟨[[pkt 1]], false⟩], 9⟩ [.pending]).1 = .pending :=
  c6_backpressure_pending ⟨[⟨[[pkt 1]], false⟩], 9⟩ [.pending]
    (by decide) (by decide) (by decide)

/-- C7: in any poll step whose source-polling loop completes without error,
the merger signals end-of-data exactly when the batch produced by the flush
decision is empty and no SourceBuffer remains after the removal of exhausted
ones. -/
theorem c7_finished_iff (m : BridgeStream) (resps : List SourceResponse)
    (msp dly : Nat) (sts : List BridgeStreamState)
    (hloop : pollLoop 0 0 (m.stream_states.zip resps) = .ok msp dly sts) :
    ((poll_next m resps).1 = .finished ↔
      ((flushRes m.max_buffer_time msp sts).1 = [] ∧
        retained (flushRes m.max_buffer_time msp sts).2 = [])) := by
  unfold poll_next
  rw [hloop]
  exact finalize_fst_finished_iff _ _ _

/-- Witness for C7 on the empty merger: the produced batch is empty, no
buffer remains, and the poll indeed reports finished. -/
theorem c7_finished_iff_witness :
    ((poll_next ⟨[], 7⟩ []).1 = .finished ↔
      ((flushRes 7 0 []).1 = [] ∧ retained (flushRes 7 0 []).2 = [])) :=
  c7_finished_iff ⟨[], 7⟩ [] 0 0 [] rfl

/-- C9 amended: in every poll step whose source-polling loop completes
without error, the retained set is exactly the non-exhausted post-flush
states: every exhausted SourceBuffer is removed, and every SourceBuffer that
is not exhausted is kept; in particular no state retained into the next step
is both complete and drained.  (A step that returns a source error skips the
removal — see the counterexample.) -/
theorem c9_retained_spec (m : BridgeStream) (resps : List SourceResponse)
    (msp dly : Nat) (sts : List BridgeStreamState)
    (hloop : pollLoop 0 0 (m.stream_states.zip resps) = .ok msp dly sts) :
    (poll_next m resps).2.stream_states =
      retained (flushRes m.max_buffer_time msp sts).2 ∧
    (∀ s ∈ (poll_next m resps).2.stream_states, is_complete s = false) ∧
    (∀ s ∈ (flushRes m.max_buffer_time msp sts).2,
      is_complete s = false → s ∈ (poll_next m resps).2.stream_states) := by
  have hsnd := poll_next_snd_ok m resps msp dly sts hloop
  refine ⟨by rw [hsnd], ?_, ?_⟩
  · intro s hs
    rw [hsnd] at hs
    simp only [retained] at hs
    have hmem := List.mem_filter.mp hs
    simpa using hmem.2
  · intro s hs hcomp
    rw [hsnd]
    simp only [retained]
    exact List.mem_filter.mpr ⟨hs, by simp [hcomp]⟩

/-- Witness for the C9 amended theorem: one source reaches end-of-data with
nothing buffered; its exhausted buffer is removed and nothing else is kept. -/
theorem c9_retained_spec_witness :
    (poll_next ⟨[⟨[], false⟩], 3⟩ [.done]).2.stream_states =
      retained (flushRes 3 0 [⟨[], true⟩]).2 ∧
    (∀ s ∈ (poll_next ⟨[⟨[], false⟩], 3⟩ [.done]).2.stream_states,
      is_complete s = false) ∧
    (∀ s ∈ (flushRes 3 0 [⟨[], true⟩]).2,
      is_complete s = false →
        s ∈ (poll_next ⟨[⟨[], false⟩], 3⟩ [.done]).2.stream_states) :=
  c9_retained_spec ⟨[⟨[], false⟩], 3⟩ [.done] 0 0 [⟨[], true⟩] rfl

end BridgeSpec
